import Mathlib

set_option autoImplicit false

namespace Cmm

/-! Shallow embedding of the cmm semantic-declaration pass: the AST contract the
checker consumes, the frame-stack Environment symbol table, and check_prog from
src/src/cmm/checker.rs. The Environment (env.rs) and the AST revision that
defines CProg, CProgElem, CProto and CFunc as used by checker.rs are not part of
the given sources; they are modelled from the specification, as marked on each
such definition. -/

/-- Variable types of the cmm dialect, from src/src/cmm/ast.rs (enum CType). -/
inductive CType where
  | Char
  | Int
deriving DecidableEq

/-- Machine numbers of the cmm dialect, from src/src/cmm/ast.rs (type CNum = i32);
the checker never computes with them, so they are modelled as integers. -/
abbrev CNum := Int

/-- Identifiers, from src/src/cmm/ast.rs (type CIdent = String). -/
abbrev CIdent := String

/-- Arithmetic operators, from src/src/cmm/ast.rs (enum COp). -/
inductive COp where
  | Mul
  | Div
  | Add
  | Sub
deriving DecidableEq

/-- Expressions, from src/src/cmm/ast.rs (enum CExpr). -/
inductive CExpr where
  | Number (n : CNum)
  | Ident (s : CIdent)
  | BinOp (l : CExpr) (op : COp) (r : CExpr)
  | Error
deriving DecidableEq

/-- Statements, from src/src/cmm/ast.rs (enum CStmt). -/
inductive CStmt where
  | Assign (l : CIdent) (r : CExpr)
  | Error
deriving DecidableEq

/-- Modelled from the spec: the variable-declaration payload consumed by check_prog
(the AST revision defining it is not under src/). check_prog destructures it as a
triple whose second component is the identifier; the spec gives VarDecl(type,
identifier), and the remaining component (an optional array size) is never
consulted by the checker. -/
abbrev CVarDecl := CType × CIdent × Option Nat

/-- Modelled from the spec: Prototype(name, returnType?, paramTypes) — a function
signature without a body; checker.rs reads only the name field. -/
structure CProto where
  ret : Option CType
  name : CIdent
  params : List CType
deriving DecidableEq

/-- Modelled from the spec: FunctionDefinition(prototype, paramNames, localDecls,
bodyStatements); checker.rs reads only the proto field. -/
structure CFunc where
  proto : CProto
  paramNames : List CIdent
  localDecls : List CVarDecl
  body : List CStmt
deriving DecidableEq

/-- Modelled from the spec: one top-level program element. The variant names
follow the match arms of check_prog: VarDecl, Func, Proto, Error (the Error
variant is the Malformed placeholder of the spec). -/
inductive CProgElem where
  | VarDecl (decl : CVarDecl)
  | Func (func : CFunc)
  | Proto (proto : CProto)
  | Error
deriving DecidableEq

/-- Modelled from the spec: a program is an ordered sequence of elements. -/
abbrev CProg := List CProgElem

/-- Modelled from the spec: one scope level of bindings of an Environment,
represented as an association list with at most one entry per key (insert
replaces in place, so entry order is stable). -/
abbrev Frame (K V : Type) := List (K × V)

/-- Lookup of a key in a single frame. -/
def frameLookup {K V : Type} [DecidableEq K] : Frame K V → K → Option V
  | [], _ => none
  | (k2, v2) :: rest, k => if k = k2 then some v2 else frameLookup rest k

/-- Insertion into a single frame: replace the binding in place when the key is
present, append it otherwise. -/
def frameInsert {K V : Type} [DecidableEq K] : Frame K V → K → V → Frame K V
  | [], k, v => [(k, v)]
  | (k2, v2) :: rest, k, v =>
    if k = k2 then (k, v) :: rest else (k2, v2) :: frameInsert rest k v

/-- Modelled from the spec: the generic scoped symbol table, a stack of frames,
newest frame first (env.rs is not under src/). -/
structure Environment (K V : Type) where
  frames : List (Frame K V)
deriving DecidableEq

/-- Modelled from the spec: the error reported when an Environment operation is
attempted with no active frame. -/
inductive EnvironmentEmpty where
  | mk
deriving DecidableEq

/-- A fresh Environment holds no frame at all. -/
def Environment.new {K V : Type} : Environment K V := ⟨[]⟩

/-- Modelled from the spec: push a new empty frame on top of the stack. -/
def Environment.push_frame {K V : Type} (e : Environment K V) : Environment K V :=
  ⟨[] :: e.frames⟩

/-- Modelled from the spec: pop the top frame, discarding its bindings (unused by
the current checker, which keeps a single global frame). -/
def Environment.pop_frame {K V : Type} (e : Environment K V) : Environment K V :=
  ⟨e.frames.tail⟩

/-- Modelled from the spec: insert binds the key in the top frame, replacing and
returning the previous binding of that key in that same frame (or nothing when
the key is new to it); it fails with EnvironmentEmpty when no frame exists. The
updated Environment is returned alongside, standing for the in-place mutation of
the source. -/
def Environment.insert {K V : Type} [DecidableEq K] (e : Environment K V) (k : K) (v : V) :
    Except EnvironmentEmpty (Option V × Environment K V) :=
  match e.frames with
  | [] => Except.error EnvironmentEmpty.mk
  | f :: rest => Except.ok (frameLookup f k, ⟨frameInsert f k v :: rest⟩)

/-- Lookup across a stack of frames, top to bottom. -/
def framesLookup {K V : Type} [DecidableEq K] : List (Frame K V) → K → Option V
  | [], _ => none
  | f :: rest, k =>
    match frameLookup f k with
    | some v => some v
    | none => framesLookup rest k

/-- Modelled from the spec: lookup returns the first binding found scanning the
frames from top to bottom. -/
def Environment.lookup {K V : Type} [DecidableEq K] (e : Environment K V) (k : K) : Option V :=
  framesLookup e.frames k

/-- Modelled from the spec: the variable-table value. check_prog inserts
(decl, None); the optional second component (a runtime value, never Some during
this pass) is modelled with CNum payload. -/
abbrev SymVal := CVarDecl × Option CNum

/-- Modelled from the spec: the function-table value, a prototype paired with the
optional definition supplying its body. -/
abbrev FuncVal := CProto × Option CFunc

/-- Modelled from the spec: the variable table of check_prog. -/
abbrev SymTab := Environment CIdent SymVal

/-- Modelled from the spec: the function table of check_prog. -/
abbrev FuncTab := Environment CIdent FuncVal

/-- Checker diagnostic record, from src/src/cmm/checker.rs (struct CheckErr). -/
structure CheckErr where
  message : String
deriving DecidableEq

/-- Escaping of one character as performed by Rust Debug formatting of string
slices for the common cases (quotes, backslashes, newline, tab, carriage
return); identifiers contain none of these in practice. -/
def rustCharDebug (c : Char) : String :=
  if c = '"' then "\\\""
  else if c = '\\' then "\\\\"
  else if c = '\n' then "\\n"
  else if c = '\t' then "\\t"
  else if c = '\r' then "\\r"
  else String.singleton c

/-- Rendering of an identifier by the format specifier used in the diagnostics
of checker.rs: the escaped contents between double quotes. -/
def rustStrDebug (s : String) : String :=
  "\"" ++ String.join (s.data.map rustCharDebug) ++ "\""

/-- Diagnostic text pushed for a duplicate variable declaration (checker.rs line 55). -/
def varDiag (name : CIdent) : CheckErr :=
  CheckErr.mk ("variable " ++ rustStrDebug name ++ " already declared")

/-- Diagnostic text pushed for a re-defined function (checker.rs line 72). -/
def funcDeclaredDiag (name : CIdent) : CheckErr :=
  CheckErr.mk ("function " ++ rustStrDebug name ++ " already declared")

/-- Diagnostic text pushed for a re-declared prototype (checker.rs line 87). -/
def funcDefinedDiag (name : CIdent) : CheckErr :=
  CheckErr.mk ("function " ++ rustStrDebug name ++ " already defined")

/-- State threaded through the pass: the caller-owned diagnostics vector and the
two tables, which checker.rs mutates in place. -/
structure CheckSt where
  errors : List CheckErr
  syms : SymTab
  funcs : FuncTab
deriving DecidableEq

/-- The two panic sites of check_prog, reached when an insert reports
EnvironmentEmpty: panic "symbol table empty" (line 59) and panic "function table
empty" (lines 77 and 91). A panic aborts the process. -/
inductive CheckerPanic where
  | symbolTableEmpty
  | functionTableEmpty
deriving DecidableEq

/-- One iteration of the element loop of check_prog (checker.rs lines 47 to 97):
dispatch on the element variant, insert into the relevant table, and append a
diagnostic when the returned previous binding triggers the per-variant policy.
An EnvironmentEmpty from insert becomes a panic that aborts the pass. -/
def checkElem (st : CheckSt) : CProgElem → Except CheckerPanic CheckSt
  | CProgElem.VarDecl decl =>
    match st.syms.insert decl.2.1 (decl, none) with
    | Except.ok (some _, syms2) =>
      Except.ok { st with errors := st.errors ++ [varDiag decl.2.1], syms := syms2 }
    | Except.ok (none, syms2) => Except.ok { st with syms := syms2 }
    | Except.error _ => Except.error CheckerPanic.symbolTableEmpty
  | CProgElem.Func func =>
    match st.funcs.insert func.proto.name (func.proto, some func) with
    | Except.ok (some (_, none), funcs2) => Except.ok { st with funcs := funcs2 }
    | Except.ok (some (_, some _), funcs2) =>
      Except.ok { st with errors := st.errors ++ [funcDeclaredDiag func.proto.name],
                          funcs := funcs2 }
    | Except.ok (none, funcs2) => Except.ok { st with funcs := funcs2 }
    | Except.error _ => Except.error CheckerPanic.functionTableEmpty
  | CProgElem.Proto proto =>
    match st.funcs.insert proto.name (proto, none) with
    | Except.ok (some _, funcs2) =>
      Except.ok { st with errors := st.errors ++ [funcDefinedDiag proto.name],
                          funcs := funcs2 }
    | Except.ok (none, funcs2) => Except.ok { st with funcs := funcs2 }
    | Except.error _ => Except.error CheckerPanic.functionTableEmpty
  | CProgElem.Error => Except.ok st

/-- The element loop of check_prog: fold checkElem over the program in source
order, a panic propagating immediately. -/
def checkElems (st : CheckSt) : CProg → Except CheckerPanic CheckSt
  | [] => Except.ok st
  | e :: es =>
    match checkElem st e with
    | Except.ok st2 => checkElems st2 es
    | Except.error p => Except.error p

/-- check_prog from src/src/cmm/checker.rs: create the function table and the
symbol table, push one frame on each, process every element, and return Ok
exactly when the caller-owned errors vector has length zero at the end. The
mutated errors vector and the two tables are returned as the final CheckSt. -/
def check_prog (errors : List CheckErr) (ast : CProg) :
    Except CheckerPanic (Except Unit Unit × CheckSt) :=
  let funcs : FuncTab := Environment.push_frame Environment.new
  let syms : SymTab := Environment.push_frame Environment.new
  match checkElems ⟨errors, syms, funcs⟩ ast with
  | Except.ok st =>
    Except.ok (if st.errors.length = 0 then Except.ok () else Except.error (), st)
  | Except.error p => Except.error p

/-- Pure one-frame model of one loop iteration: given the top (and only) frames of
the two tables, return the diagnostics this element appends together with the
updated frames. checkElem agrees with it whenever both tables have a top frame. -/
def stepD (sf : Frame CIdent SymVal) (ff : Frame CIdent FuncVal) :
    CProgElem → List CheckErr × Frame CIdent SymVal × Frame CIdent FuncVal
  | CProgElem.VarDecl decl =>
    ((match frameLookup sf decl.2.1 with
      | some _ => [varDiag decl.2.1]
      | none => []),
     frameInsert sf decl.2.1 (decl, none), ff)
  | CProgElem.Func func =>
    ((match frameLookup ff func.proto.name with
      | some (_, some _) => [funcDeclaredDiag func.proto.name]
      | _ => []),
     sf, frameInsert ff func.proto.name (func.proto, some func))
  | CProgElem.Proto proto =>
    ((match frameLookup ff proto.name with
      | some _ => [funcDefinedDiag proto.name]
      | none => []),
     sf, frameInsert ff proto.name (proto, none))
  | CProgElem.Error => ([], sf, ff)

/-- Pure one-frame model of the whole loop: the diagnostics appended by the pass
in source order, together with the final frames. -/
def runD (sf : Frame CIdent SymVal) (ff : Frame CIdent FuncVal) :
    CProg → List CheckErr × Frame CIdent SymVal × Frame CIdent FuncVal
  | [] => ([], sf, ff)
  | e :: es =>
    let r := stepD sf ff e
    let r2 := runD r.2.1 r.2.2 es
    (r.1 ++ r2.1, r2.2)

/-- The last variable declaration with the given name in a program, the value the
variable table retains for that name at the end of the pass. -/
def lastVarDecl : CProg → CIdent → Option CVarDecl
  | [], _ => none
  | CProgElem.VarDecl d :: es, x =>
    Option.or (lastVarDecl es x) (if d.2.1 = x then some d else none)
  | CProgElem.Func _ :: es, x => lastVarDecl es x
  | CProgElem.Proto _ :: es, x => lastVarDecl es x
  | CProgElem.Error :: es, x => lastVarDecl es x

/-- The function-table binding induced by the last prototype or definition with
the given name in a program. -/
def lastFuncBind : CProg → CIdent → Option FuncVal
  | [], _ => none
  | CProgElem.VarDecl _ :: es, f => lastFuncBind es f
  | CProgElem.Func fn :: es, f =>
    Option.or (lastFuncBind es f)
      (if fn.proto.name = f then some (fn.proto, some fn) else none)
  | CProgElem.Proto p :: es, f =>
    Option.or (lastFuncBind es f) (if p.name = f then some (p, none) else none)
  | CProgElem.Error :: es, f => lastFuncBind es f

/-! Basic lemmas about frames and the loop. -/

theorem frameLookup_frameInsert {K V : Type} [DecidableEq K]
    (f : Frame K V) (k : K) (v : V) (k2 : K) :
    frameLookup (frameInsert f k v) k2 = if k2 = k then some v else frameLookup f k2 := by
  induction f with
  | nil => simp [frameInsert, frameLookup]
  | cons hd tl ih =>
    obtain ⟨k3, v3⟩ := hd
    simp only [frameInsert]
    by_cases hk : k = k3
    · subst hk
      simp only [if_pos rfl, frameLookup]
      by_cases h2 : k2 = k
      · simp [h2]
      · simp [h2]
    · simp only [if_neg hk, frameLookup]
      by_cases h2 : k2 = k3
      · subst h2
        have hne : ¬ k2 = k := fun h => hk h.symm
        simp [hne]
      · simp [h2, ih]

theorem checkElems_append (es1 es2 : CProg) (st : CheckSt) :
    checkElems st (es1 ++ es2) =
      (checkElems st es1).bind (fun s2 => checkElems s2 es2) := by
  induction es1 generalizing st with
  | nil => simp [checkElems, Except.bind]
  | cons e es ih =>
    simp only [List.cons_append, checkElems]
    cases checkElem st e with
    | ok st2 => simpa using ih st2
    | error p => simp [Except.bind]

theorem runD_append (es1 es2 : CProg)
    (sf : Frame CIdent SymVal) (ff : Frame CIdent FuncVal) :
    runD sf ff (es1 ++ es2) =
      ((runD sf ff es1).1 ++ (runD (runD sf ff es1).2.1 (runD sf ff es1).2.2 es2).1,
       (runD (runD sf ff es1).2.1 (runD sf ff es1).2.2 es2).2) := by
  induction es1 generalizing sf ff with
  | nil => simp [runD]
  | cons e es ih =>
    simp only [List.cons_append, runD, List.append_eq]
    rw [ih]
    simp [List.append_assoc]

theorem checkElems_eq_runD (es : CProg) (errs : List CheckErr)
    (sf : Frame CIdent SymVal) (sfr : List (Frame CIdent SymVal))
    (ff : Frame CIdent FuncVal) (ffr : List (Frame CIdent FuncVal)) :
    checkElems ⟨errs, ⟨sf :: sfr⟩, ⟨ff :: ffr⟩⟩ es =
      Except.ok ⟨errs ++ (runD sf ff es).1,
                 ⟨(runD sf ff es).2.1 :: sfr⟩, ⟨(runD sf ff es).2.2 :: ffr⟩⟩ := by
  induction es generalizing errs sf ff with
  | nil => simp [checkElems, runD]
  | cons e es ih =>
    cases e with
    | VarDecl d =>
      simp only [checkElems, checkElem, Environment.insert]
      cases h : frameLookup sf d.2.1 with
      | some v =>
        simp only [h]
        rw [ih]
        simp [runD, stepD, h, List.append_assoc]
      | none =>
        simp only [h]
        rw [ih]
        simp [runD, stepD, h]
    | Func fn =>
      simp only [checkElems, checkElem, Environment.insert]
      cases h : frameLookup ff fn.proto.name with
      | some v =>
        obtain ⟨p0, b⟩ := v
        cases b with
        | none =>
          simp only [h]
          rw [ih]
          simp [runD, stepD, h]
        | some fn0 =>
          simp only [h]
          rw [ih]
          simp [runD, stepD, h, List.append_assoc]
      | none =>
        simp only [h]
        rw [ih]
        simp [runD, stepD, h]
    | Proto p =>
      simp only [checkElems, checkElem, Environment.insert]
      cases h : frameLookup ff p.name with
      | some v =>
        simp only [h]
        rw [ih]
        simp [runD, stepD, h, List.append_assoc]
      | none =>
        simp only [h]
        rw [ih]
        simp [runD, stepD, h]
    | Error =>
      simp only [checkElems, checkElem]
      rw [ih]
      simp [runD, stepD]

theorem check_prog_eq_runD (errs : List CheckErr) (ast : CProg) :
    check_prog errs ast =
      Except.ok ((if (errs ++ (runD [] [] ast).1).length = 0
                    then Except.ok () else Except.error ()),
                 ⟨errs ++ (runD [] [] ast).1,
                  ⟨[(runD [] [] ast).2.1]⟩, ⟨[(runD [] [] ast).2.2]⟩⟩) := by
  simp only [check_prog, Environment.push_frame, Environment.new]
  rw [checkElems_eq_runD]

theorem runD_sym_lookup (es : CProg) (x : CIdent)
    (sf : Frame CIdent SymVal) (ff : Frame CIdent FuncVal) :
    frameLookup (runD sf ff es).2.1 x =
      Option.or ((lastVarDecl es x).map (fun d => (d, (none : Option CNum))))
        (frameLookup sf x) := by
  induction es generalizing sf ff with
  | nil => simp [runD, lastVarDecl]
  | cons e es ih =>
    cases e with
    | VarDecl d =>
      simp only [runD, stepD, lastVarDecl]
      rw [ih]
      cases hl : lastVarDecl es x with
      | some d2 => simp
      | none =>
        simp only [Option.map_none, Option.none_or]
        rw [frameLookup_frameInsert]
        by_cases h : x = d.2.1
        · subst h
          simp
        · have h2 : ¬ d.2.1 = x := fun hh => h hh.symm
          simp [h, h2]
    | Func fn =>
      simp only [runD, stepD, lastVarDecl]
      exact ih _ _
    | Proto p =>
      simp only [runD, stepD, lastVarDecl]
      exact ih _ _
    | Error =>
      simp only [runD, stepD, lastVarDecl]
      exact ih _ _

theorem runD_func_lookup (es : CProg) (f : CIdent)
    (sf : Frame CIdent SymVal) (ff : Frame CIdent FuncVal) :
    frameLookup (runD sf ff es).2.2 f =
      Option.or (lastFuncBind es f) (frameLookup ff f) := by
  induction es generalizing sf ff with
  | nil => simp [runD, lastFuncBind]
  | cons e es ih =>
    cases e with
    | VarDecl d =>
      simp only [runD, stepD, lastFuncBind]
      exact ih _ _
    | Func fn =>
      simp only [runD, stepD, lastFuncBind]
      rw [ih]
      cases hl : lastFuncBind es f with
      | some v => simp
      | none =>
        simp only [Option.none_or]
        rw [frameLookup_frameInsert]
        by_cases h : f = fn.proto.name
        · subst h
          simp
        · have h2 : ¬ fn.proto.name = f := fun hh => h hh.symm
          simp [h, h2]
    | Proto p =>
      simp only [runD, stepD, lastFuncBind]
      rw [ih]
      cases hl : lastFuncBind es f with
      | some v => simp
      | none =>
        simp only [Option.none_or]
        rw [frameLookup_frameInsert]
        by_cases h : f = p.name
        · subst h
          simp
        · have h2 : ¬ p.name = f := fun hh => h hh.symm
          simp [h, h2]
    | Error =>
      simp only [runD, stepD, lastFuncBind]
      exact ih _ _

theorem runD_sim (x : CIdent) (es : CProg)
    (sf sf' : Frame CIdent SymVal) (ff : Frame CIdent FuncVal)
    (hnox : lastVarDecl es x = none)
    (hagree : ∀ k, ¬ k = x → frameLookup sf' k = frameLookup sf k) :
    (runD sf' ff es).1 = (runD sf ff es).1 ∧
    (runD sf' ff es).2.2 = (runD sf ff es).2.2 ∧
    (∀ k, ¬ k = x → frameLookup (runD sf' ff es).2.1 k = frameLookup (runD sf ff es).2.1 k) ∧
    frameLookup (runD sf' ff es).2.1 x = frameLookup sf' x := by
  induction es generalizing sf sf' ff with
  | nil => exact ⟨rfl, rfl, hagree, rfl⟩
  | cons e es ih =>
    cases e with
    | VarDecl d =>
      rw [lastVarDecl, Option.or_eq_none] at hnox
      have htail : lastVarDecl es x = none := hnox.1
      have hname : ¬ d.2.1 = x := by
        intro h
        have h2 := hnox.2
        rw [if_pos h] at h2
        exact Option.noConfusion h2
      have hagree2 : ∀ k, ¬ k = x →
          frameLookup (frameInsert sf' d.2.1 (d, none)) k =
          frameLookup (frameInsert sf d.2.1 (d, none)) k := by
        intro k hk
        rw [frameLookup_frameInsert, frameLookup_frameInsert]
        by_cases h : k = d.2.1
        · simp [h]
        · simp [h, hagree k hk]
      obtain ⟨hd, hf, ha, hx⟩ := ih (frameInsert sf d.2.1 (d, none))
        (frameInsert sf' d.2.1 (d, none)) ff htail hagree2
      refine ⟨?_, hf, ha, ?_⟩
      · simp only [runD, stepD]
        rw [hagree d.2.1 hname, hd]
      · simp only [runD, stepD] at hx ⊢
        rw [hx, frameLookup_frameInsert]
        have hxd : ¬ x = d.2.1 := fun h => hname h.symm
        simp [hxd]
    | Func fn =>
      have htail : lastVarDecl es x = none := by rw [lastVarDecl] at hnox; exact hnox
      obtain ⟨hd, hf, ha, hx⟩ := ih sf sf'
        (frameInsert ff fn.proto.name (fn.proto, some fn)) htail hagree
      refine ⟨?_, ?_, ha, hx⟩
      · simp only [runD, stepD]
        rw [hd]
      · simp only [runD, stepD]
        rw [hf]
    | Proto p =>
      have htail : lastVarDecl es x = none := by rw [lastVarDecl] at hnox; exact hnox
      obtain ⟨hd, hf, ha, hx⟩ := ih sf sf'
        (frameInsert ff p.name (p, none)) htail hagree
      refine ⟨?_, ?_, ha, hx⟩
      · simp only [runD, stepD]
        rw [hd]
      · simp only [runD, stepD]
        rw [hf]
    | Error =>
      have htail : lastVarDecl es x = none := by rw [lastVarDecl] at hnox; exact hnox
      obtain ⟨hd, hf, ha, hx⟩ := ih sf sf' ff htail hagree
      exact ⟨hd, hf, ha, hx⟩

/-! Claim theorems. -/

/-- C1: check_prog returns the success verdict if and only if the diagnostics
sink is empty after all program elements have been processed; otherwise it
returns the rejection marker, which carries no information of its own. -/
theorem check_prog_ok_iff_no_diagnostics (errs : List CheckErr) (ast : CProg)
    (v : Except Unit Unit) (st : CheckSt)
    (h : check_prog errs ast = Except.ok (v, st)) :
    (v = Except.ok () ↔ st.errors = []) ∧
    (v = Except.error () ↔ ¬ st.errors = []) := by
  rw [check_prog_eq_runD] at h
  simp only [Except.ok.injEq, Prod.mk.injEq] at h
  obtain ⟨hv, hst⟩ := h
  subst hv
  subst hst
  by_cases hlen : (errs ++ (runD [] [] ast).1).length = 0
  · have hnil : errs ++ (runD [] [] ast).1 = [] := List.length_eq_zero.mp hlen
    rw [if_pos hlen]
    constructor
    · simp [CheckSt.errors, hnil]
    · simp [CheckSt.errors, hnil]
  · have hne : ¬ errs ++ (runD [] [] ast).1 = [] := by
      intro hh
      rw [hh] at hlen
      exact hlen rfl
    rw [if_neg hlen]
    constructor
    · simp [CheckSt.errors, hne]
    · simp [CheckSt.errors, hne]

/-- Witness for C1 at a concrete duplicate-variable program: the verdict is the
rejection marker and the sink is the one produced diagnostic. -/
theorem check_prog_ok_iff_no_diagnostics_witness :
    ((Except.error () : Except Unit Unit) = Except.ok () ↔
      ([varDiag ("x")] : List CheckErr) = []) ∧
    ((Except.error () : Except Unit Unit) = Except.error () ↔
      ¬ ([varDiag ("x")] : List CheckErr) = []) :=
  check_prog_ok_iff_no_diagnostics []
    [CProgElem.VarDecl (CType.Int, ("x"), none), CProgElem.VarDecl (CType.Int, ("x"), none)]
    (Except.error ())
    ⟨[varDiag ("x")], ⟨[[(("x"), ((CType.Int, ("x"), none), (none : Option CNum)))]]⟩, ⟨[[]]⟩⟩
    rfl

/-- C10: the verdict is computed from the total length of the caller-owned errors
vector at the end of the pass, so a caller-supplied non-empty vector forces the
rejection marker for every program, even one producing zero diagnostics itself. -/
theorem verdict_from_caller_errors_length (errs : List CheckErr) (ast : CProg)
    (v : Except Unit Unit) (st : CheckSt)
    (hne : ¬ errs = [])
    (h : check_prog errs ast = Except.ok (v, st)) :
    v = Except.error () := by
  rw [check_prog_eq_runD] at h
  simp only [Except.ok.injEq, Prod.mk.injEq] at h
  obtain ⟨hv, _⟩ := h
  have hlen : ¬ (errs ++ (runD [] [] ast).1).length = 0 := by
    intro hl
    exact hne (List.append_eq_nil.mp (List.length_eq_zero.mp hl)).1
  rw [if_neg hlen] at hv
  exact hv.symm

/-- Witness for C10: a stale caller-supplied diagnostic rejects the empty
program, which itself produces no diagnostics. -/
theorem verdict_from_caller_errors_length_witness :
    (Except.error () : Except Unit Unit) = Except.error () :=
  verdict_from_caller_errors_length [CheckErr.mk ("stale")] []
    (Except.error ()) ⟨[CheckErr.mk ("stale")], ⟨[[]]⟩, ⟨[[]]⟩⟩
    (by decide) rfl

/-- C7: a Malformed (Error) element leaves the tables and the sink exactly as
they were, inserting one at any position changes nothing about the result, and a
program of only Malformed elements is accepted with zero diagnostics. -/
theorem malformed_element_no_effect :
    (∀ st : CheckSt, checkElem st CProgElem.Error = Except.ok st) ∧
    (∀ (errs : List CheckErr) (p1 p2 : CProg),
      check_prog errs (p1 ++ CProgElem.Error :: p2) = check_prog errs (p1 ++ p2)) ∧
    (∀ n : Nat, check_prog [] (List.replicate n CProgElem.Error) =
      Except.ok (Except.ok (), ⟨[], ⟨[[]]⟩, ⟨[[]]⟩⟩)) := by
  have hskip : ∀ st : CheckSt, checkElem st CProgElem.Error = Except.ok st := fun _ => rfl
  refine ⟨hskip, ?_, ?_⟩
  · intro errs p1 p2
    have hElems : ∀ st : CheckSt,
        checkElems st (p1 ++ CProgElem.Error :: p2) = checkElems st (p1 ++ p2) := by
      intro st
      rw [checkElems_append, checkElems_append]
      have hfun : (fun s => checkElems s (CProgElem.Error :: p2)) =
          (fun s => checkElems s p2) := by
        funext s
        rfl
      rw [hfun]
    simp only [check_prog]
    rw [hElems]
  · intro n
    have hrep : ∀ (m : Nat) (st : CheckSt),
        checkElems st (List.replicate m CProgElem.Error) = Except.ok st := by
      intro m
      induction m with
      | zero => intro st; rfl
      | succ k ih =>
        intro st
        simpa [List.replicate, checkElems, checkElem] using ih st
    simp [check_prog, hrep, Environment.push_frame, Environment.new]

/-- C8: an EnvironmentEmpty result from an insert panics at once — the rest of
the program is not processed and no ordinary diagnostic is recorded — and since
check_prog pushes one frame on each table before the loop, these branches are
unreachable: check_prog never returns a panic. -/
theorem environment_empty_panic_unreachable :
    (∀ (errs : List CheckErr) (fu : FuncTab) (d : CVarDecl) (es : CProg),
      checkElems ⟨errs, ⟨[]⟩, fu⟩ (CProgElem.VarDecl d :: es) =
        Except.error CheckerPanic.symbolTableEmpty) ∧
    (∀ (errs : List CheckErr) (sy : SymTab) (p : CProto) (es : CProg),
      checkElems ⟨errs, sy, ⟨[]⟩⟩ (CProgElem.Proto p :: es) =
        Except.error CheckerPanic.functionTableEmpty) ∧
    (∀ (errs : List CheckErr) (sy : SymTab) (fn : CFunc) (es : CProg),
      checkElems ⟨errs, sy, ⟨[]⟩⟩ (CProgElem.Func fn :: es) =
        Except.error CheckerPanic.functionTableEmpty) ∧
    (∀ (errs : List CheckErr) (ast : CProg),
      ∃ v st, check_prog errs ast = Except.ok (v, st)) := by
  refine ⟨?_, ?_, ?_, ?_⟩
  · intro errs fu d es
    rfl
  · intro errs sy p es
    rfl
  · intro errs sy fn es
    rfl
  · intro errs ast
    exact ⟨_, _, check_prog_eq_runD errs ast⟩

/-- C6: every element is processed exactly once in source order with no early
exit (the loop decomposes sequentially over any split of the program), each
processed element appends at most one diagnostic at the end of the sink, and an
element whose identifier is not yet bound in its table is never flagged — only a
later occurrence of an identifier can produce a diagnostic. -/
theorem processing_in_source_order :
    (∀ (st : CheckSt) (es1 es2 : CProg),
      checkElems st (es1 ++ es2) =
        (checkElems st es1).bind (fun s2 => checkElems s2 es2)) ∧
    (∀ (st : CheckSt) (e : CProgElem) (st2 : CheckSt),
      checkElem st e = Except.ok st2 →
      st2.errors = st.errors ∨ ∃ dg, st2.errors = st.errors ++ [dg]) ∧
    (∀ (errs : List CheckErr) (sf : Frame CIdent SymVal)
       (sfr : List (Frame CIdent SymVal)) (fu : FuncTab) (d : CVarDecl),
      frameLookup sf d.2.1 = none →
      checkElem ⟨errs, ⟨sf :: sfr⟩, fu⟩ (CProgElem.VarDecl d) =
        Except.ok ⟨errs, ⟨frameInsert sf d.2.1 (d, none) :: sfr⟩, fu⟩) ∧
    (∀ (errs : List CheckErr) (sy : SymTab) (ff : Frame CIdent FuncVal)
       (ffr : List (Frame CIdent FuncVal)) (p : CProto),
      frameLookup ff p.name = none →
      checkElem ⟨errs, sy, ⟨ff :: ffr⟩⟩ (CProgElem.Proto p) =
        Except.ok ⟨errs, sy, ⟨frameInsert ff p.name (p, none) :: ffr⟩⟩) ∧
    (∀ (errs : List CheckErr) (sy : SymTab) (ff : Frame CIdent FuncVal)
       (ffr : List (Frame CIdent FuncVal)) (fn : CFunc),
      frameLookup ff fn.proto.name = none →
      checkElem ⟨errs, sy, ⟨ff :: ffr⟩⟩ (CProgElem.Func fn) =
        Except.ok ⟨errs, sy, ⟨frameInsert ff fn.proto.name (fn.proto, some fn) :: ffr⟩⟩) := by
  refine ⟨fun st es1 es2 => checkElems_append es1 es2 st, ?_, ?_, ?_, ?_⟩
  · intro st e st2 h
    obtain ⟨errs, ⟨sfl⟩, ⟨ffl⟩⟩ := st
    cases e with
    | VarDecl d =>
      cases sfl with
      | nil => simp [checkElem, Environment.insert] at h
      | cons sf rest =>
        cases hl : frameLookup sf d.2.1 with
        | some v =>
          simp only [checkElem, Environment.insert, hl, Except.ok.injEq] at h
          subst h
          right
          exact ⟨varDiag d.2.1, rfl⟩
        | none =>
          simp only [checkElem, Environment.insert, hl, Except.ok.injEq] at h
          subst h
          left
          rfl
    | Func fn =>
      cases ffl with
      | nil => simp [checkElem, Environment.insert] at h
      | cons ff rest =>
        cases hl : frameLookup ff fn.proto.name with
        | some v =>
          obtain ⟨p0, b0⟩ := v
          cases b0 with
          | none =>
            simp only [checkElem, Environment.insert, hl, Except.ok.injEq] at h
            subst h
            left
            rfl
          | some fn0 =>
            simp only [checkElem, Environment.insert, hl, Except.ok.injEq] at h
            subst h
            right
            exact ⟨funcDeclaredDiag fn.proto.name, rfl⟩
        | none =>
          simp only [checkElem, Environment.insert, hl, Except.ok.injEq] at h
          subst h
          left
          rfl
    | Proto p =>
      cases ffl with
      | nil => simp [checkElem, Environment.insert] at h
      | cons ff rest =>
        cases hl : frameLookup ff p.name with
        | some v =>
          simp only [checkElem, Environment.insert, hl, Except.ok.injEq] at h
          subst h
          right
          exact ⟨funcDefinedDiag p.name, rfl⟩
        | none =>
          simp only [checkElem, Environment.insert, hl, Except.ok.injEq] at h
          subst h
          left
          rfl
    | Error =>
      simp only [checkElem, Except.ok.injEq] at h
      subst h
      left
      rfl
  · intro errs sf sfr fu d hl
    simp [checkElem, Environment.insert, hl]
  · intro errs sy ff ffr p hl
    simp [checkElem, Environment.insert, hl]
  · intro errs sy ff ffr fn hl
    simp [checkElem, Environment.insert, hl]

/-- Witness for C6 at a concrete first occurrence: a variable declaration whose
identifier is new to the table is inserted without any diagnostic. -/
theorem processing_in_source_order_witness :
    checkElem ⟨[], ⟨[[]]⟩, ⟨[[]]⟩⟩ (CProgElem.VarDecl (CType.Int, ("x"), none)) =
      Except.ok ⟨[], ⟨[[(("x"), ((CType.Int, ("x"), none), (none : Option CNum)))]]⟩, ⟨[[]]⟩⟩ :=
  processing_in_source_order.2.2.1 [] [] [] ⟨[[]]⟩ (CType.Int, ("x"), none) rfl

/-- C3: a Prototype named f followed by a FunctionDefinition also named f
produces zero diagnostics — the definition silently fulfils the forward
declaration, with no signature comparison — and the function table ends with f
bound to the new (prototype, present-body) pair. -/
theorem proto_then_definition_accepted (p : CProto) (fn : CFunc) (f : CIdent)
    (v : Except Unit Unit) (st : CheckSt)
    (h1 : p.name = f) (h2 : fn.proto.name = f)
    (h : check_prog [] [CProgElem.Proto p, CProgElem.Func fn] = Except.ok (v, st)) :
    v = Except.ok () ∧ st.errors = [] ∧ st.funcs.lookup f = some (fn.proto, some fn) := by
  subst h1
  rw [check_prog_eq_runD] at h
  simp only [runD, stepD, frameLookup, frameInsert, h2, if_pos rfl,
    List.nil_append, List.append_nil, List.length_nil, if_pos rfl,
    Except.ok.injEq, Prod.mk.injEq] at h
  obtain ⟨hv, hst⟩ := h
  subst hv
  subst hst
  refine ⟨rfl, rfl, ?_⟩
  simp [Environment.lookup, framesLookup, frameLookup]

/-- Witness for C3 at a concrete prototype and fulfilment. -/
theorem proto_then_definition_accepted_witness :
    (Except.ok () : Except Unit Unit) = Except.ok () ∧
    ([] : List CheckErr) = [] ∧
    (⟨[[(("f"), ((⟨some CType.Int, ("f"), [CType.Char]⟩ : CProto),
        some (⟨⟨some CType.Int, ("f"), [CType.Char]⟩, [("a")], [], []⟩ : CFunc)))]]⟩ :
      FuncTab).lookup ("f") =
      some (⟨some CType.Int, ("f"), [CType.Char]⟩,
        some (⟨⟨some CType.Int, ("f"), [CType.Char]⟩, [("a")], [], []⟩ : CFunc)) :=
  proto_then_definition_accepted ⟨none, ("f"), []⟩
    ⟨⟨some CType.Int, ("f"), [CType.Char]⟩, [("a")], [], []⟩ ("f")
    (Except.ok ())
    ⟨[], ⟨[[]]⟩, ⟨[[(("f"), ((⟨some CType.Int, ("f"), [CType.Char]⟩ : CProto),
        some (⟨⟨some CType.Int, ("f"), [CType.Char]⟩, [("a")], [], []⟩ : CFunc)))]]⟩⟩
    rfl rfl rfl

/-- C4: a Prototype whose name already has any binding in the function table —
with or without a body, including a prior bare prototype — is flagged with the
already-defined diagnostic; in particular declaring the same prototype twice is
rejected with exactly that diagnostic. -/
theorem proto_redeclaration_always_defined_diag :
    (∀ (errs : List CheckErr) (sy : SymTab) (ff : Frame CIdent FuncVal)
       (ffr : List (Frame CIdent FuncVal)) (p : CProto) (v0 : FuncVal),
      frameLookup ff p.name = some v0 →
      checkElem ⟨errs, sy, ⟨ff :: ffr⟩⟩ (CProgElem.Proto p) =
        Except.ok ⟨errs ++ [funcDefinedDiag p.name], sy,
                   ⟨frameInsert ff p.name (p, none) :: ffr⟩⟩) ∧
    (∀ (p q : CProto) (v : Except Unit Unit) (st : CheckSt),
      q.name = p.name →
      check_prog [] [CProgElem.Proto p, CProgElem.Proto q] = Except.ok (v, st) →
      v = Except.error () ∧ st.errors = [funcDefinedDiag p.name]) := by
  constructor
  · intro errs sy ff ffr p v0 hl
    simp [checkElem, Environment.insert, hl]
  · intro p q v st hq h
    rw [check_prog_eq_runD] at h
    simp only [runD, stepD, frameLookup, frameInsert, hq, if_pos rfl,
      List.nil_append, List.append_nil, Except.ok.injEq, Prod.mk.injEq] at h
    obtain ⟨hv, hst⟩ := h
    subst hst
    refine ⟨?_, rfl⟩
    rw [← hv]
    rfl

/-- Witness for C4 at two concrete identical prototypes. -/
theorem proto_redeclaration_always_defined_diag_witness :
    (Except.error () : Except Unit Unit) = Except.error () ∧
    ([funcDefinedDiag ("f")] : List CheckErr) = [funcDefinedDiag ("f")] :=
  proto_redeclaration_always_defined_diag.2 ⟨none, ("f"), []⟩ ⟨none, ("f"), []⟩
    (Except.error ())
    ⟨[funcDefinedDiag ("f")], ⟨[[]]⟩,
     ⟨[[(("f"), ((⟨none, ("f"), []⟩ : CProto), (none : Option CFunc)))]]⟩⟩
    rfl rfl

/-- C9: insert replaces the top-frame binding unconditionally (the previous
value is only returned for inspection), so a flagged duplicate still overwrites
the table with the newer element's value, and at the end of the pass each table
binds every identifier to the value of its last declaration — also for
identifiers reported as conflicts. -/
theorem duplicate_tables_keep_last_binding :
    (∀ (K V : Type) [DecidableEq K] (fr : Frame K V) (rest : List (Frame K V)) (k : K) (w : V),
      Environment.insert ⟨fr :: rest⟩ k w =
        Except.ok (frameLookup fr k, ⟨frameInsert fr k w :: rest⟩)) ∧
    (∀ (errs : List CheckErr) (sf : Frame CIdent SymVal)
       (sfr : List (Frame CIdent SymVal)) (fu : FuncTab) (d : CVarDecl) (old : SymVal),
      frameLookup sf d.2.1 = some old →
      checkElem ⟨errs, ⟨sf :: sfr⟩, fu⟩ (CProgElem.VarDecl d) =
        Except.ok ⟨errs ++ [varDiag d.2.1], ⟨frameInsert sf d.2.1 (d, none) :: sfr⟩, fu⟩ ∧
      frameLookup (frameInsert sf d.2.1 (d, none)) d.2.1 = some (d, none)) ∧
    (∀ (ff : Frame CIdent FuncVal) (p : CProto),
      frameLookup (frameInsert ff p.name (p, none)) p.name = some (p, none)) ∧
    (∀ (ff : Frame CIdent FuncVal) (fn : CFunc),
      frameLookup (frameInsert ff fn.proto.name (fn.proto, some fn)) fn.proto.name =
        some (fn.proto, some fn)) ∧
    (∀ (errs : List CheckErr) (ast : CProg) (v : Except Unit Unit) (st : CheckSt),
      check_prog errs ast = Except.ok (v, st) →
      (∀ x, st.syms.lookup x = (lastVarDecl ast x).map (fun d => (d, (none : Option CNum)))) ∧
      (∀ f, st.funcs.lookup f = lastFuncBind ast f)) := by
  refine ⟨?_, ?_, ?_, ?_, ?_⟩
  · intro K V inst fr rest k w
    rfl
  · intro errs sf sfr fu d old hl
    constructor
    · simp [checkElem, Environment.insert, hl]
    · rw [frameLookup_frameInsert]
      simp
  · intro ff p
    rw [frameLookup_frameInsert]
    simp
  · intro ff fn
    rw [frameLookup_frameInsert]
    simp
  · intro errs ast v st h
    rw [check_prog_eq_runD] at h
    simp only [Except.ok.injEq, Prod.mk.injEq] at h
    obtain ⟨_, hst⟩ := h
    subst hst
    constructor
    · intro x
      have hchar := runD_sym_lookup ast x [] []
      have hnil : frameLookup ([] : Frame CIdent SymVal) x = none := rfl
      have hor : ∀ o : Option SymVal, Option.or o none = o := by
        intro o
        cases o <;> rfl
      rw [hnil, hor] at hchar
      show framesLookup [(runD [] [] ast).2.1] x = _
      cases hfl : frameLookup (runD [] [] ast).2.1 x with
      | some w =>
        simp only [framesLookup, hfl]
        rw [← hchar, hfl]
      | none =>
        simp only [framesLookup, hfl]
        rw [← hchar, hfl]
    · intro f
      have hchar := runD_func_lookup ast f [] []
      have hnil : frameLookup ([] : Frame CIdent FuncVal) f = none := rfl
      have hor : ∀ o : Option FuncVal, Option.or o none = o := by
        intro o
        cases o <;> rfl
      rw [hnil, hor] at hchar
      show framesLookup [(runD [] [] ast).2.2] f = _
      cases hfl : frameLookup (runD [] [] ast).2.2 f with
      | some w =>
        simp only [framesLookup, hfl]
        rw [← hchar, hfl]
      | none =>
        simp only [framesLookup, hfl]
        rw [← hchar, hfl]

/-- Witness for C9 at a concrete duplicate variable declaration: the diagnostic
is emitted and the table now binds the identifier to the newer declaration. -/
theorem duplicate_tables_keep_last_binding_witness :
    checkElem ⟨[], ⟨[[(("x"), ((CType.Int, ("x"), none), (none : Option CNum)))]]⟩, ⟨[[]]⟩⟩
        (CProgElem.VarDecl (CType.Char, ("x"), none)) =
      Except.ok ⟨[varDiag ("x")],
        ⟨[[(("x"), ((CType.Char, ("x"), none), (none : Option CNum)))]]⟩, ⟨[[]]⟩⟩ ∧
    frameLookup ([(("x"), ((CType.Char, ("x"), none), none))] : Frame CIdent SymVal) ("x") =
      some (((CType.Char, ("x"), none), none) : SymVal) :=
  duplicate_tables_keep_last_binding.2.1 []
    [(("x"), ((CType.Int, ("x"), none), (none : Option CNum)))] [] ⟨[[]]⟩
    (CType.Char, ("x"), none) ((CType.Int, ("x"), none), (none : Option CNum)) rfl

/-! Helpers for the duplicate-definition and duplicate-variable claims. -/

theorem runD_cons (sf : Frame CIdent SymVal) (ff : Frame CIdent FuncVal)
    (e : CProgElem) (es : CProg) :
    runD sf ff (e :: es) =
      ((stepD sf ff e).1 ++ (runD (stepD sf ff e).2.1 (stepD sf ff e).2.2 es).1,
       (runD (stepD sf ff e).2.1 (stepD sf ff e).2.2 es).2) := rfl

theorem runD_mem_append_right (sf : Frame CIdent SymVal) (ff : Frame CIdent FuncVal)
    (es1 es2 : CProg) (dg : CheckErr)
    (hm : dg ∈ (runD (runD sf ff es1).2.1 (runD sf ff es1).2.2 es2).1) :
    dg ∈ (runD sf ff (es1 ++ es2)).1 := by
  rw [runD_append]
  exact List.mem_append_right _ hm

theorem runD_mem_cons_head (sf : Frame CIdent SymVal) (ff : Frame CIdent FuncVal)
    (e : CProgElem) (es : CProg) (dg : CheckErr)
    (hm : dg ∈ (stepD sf ff e).1) :
    dg ∈ (runD sf ff (e :: es)).1 :=
  List.mem_append_left _ hm

theorem lastFuncBind_no_proto_body (p2 : CProg) (f : CIdent)
    (hp : ∀ pr : CProto, CProgElem.Proto pr ∈ p2 → ¬ pr.name = f) :
    ∀ w, lastFuncBind p2 f = some w → ∃ fnX : CFunc, w = (fnX.proto, some fnX) := by
  induction p2 with
  | nil =>
    intro w hw
    exact Option.noConfusion hw
  | cons e es ih =>
    have hp2 : ∀ pr : CProto, CProgElem.Proto pr ∈ es → ¬ pr.name = f :=
      fun pr hpr => hp pr (List.mem_cons_of_mem _ hpr)
    intro w hw
    cases e with
    | VarDecl d =>
      rw [lastFuncBind] at hw
      exact ih hp2 w hw
    | Func fn =>
      rw [lastFuncBind] at hw
      cases hl : lastFuncBind es f with
      | some w0 =>
        rw [hl] at hw
        simp only [Option.or, Option.some.injEq] at hw
        subst hw
        exact ih hp2 w0 hl
      | none =>
        rw [hl, Option.none_or] at hw
        by_cases hn : fn.proto.name = f
        · rw [if_pos hn] at hw
          injection hw with hww
          exact ⟨fn, hww.symm⟩
        · rw [if_neg hn] at hw
          exact Option.noConfusion hw
    | Proto pr =>
      rw [lastFuncBind] at hw
      have hne : ¬ pr.name = f := hp pr (List.mem_cons_self _ _)
      rw [if_neg hne] at hw
      cases hl : lastFuncBind es f with
      | some w0 =>
        rw [hl] at hw
        simp only [Option.or, Option.some.injEq] at hw
        subst hw
        exact ih hp2 w0 hl
      | none =>
        rw [hl, Option.none_or] at hw
        exact Option.noConfusion hw
    | Error =>
      rw [lastFuncBind] at hw
      exact ih hp2 w hw

/-- C5 (amended): in a program containing two function definitions of the same
name f, with no prototype of f between them, the second definition is flagged
with the already-declared diagnostic and the program is rejected; a single
definition whose name has no binding yet produces no diagnostic. (The original
claim, quantified over all programs containing two definitions of f, fails when
a Prototype of f stands between them, see the counterexample.) -/
theorem func_redefinition_declared_diag :
    (∀ (p1 p2 p3 : CProg) (f1 f2 : CFunc) (f : CIdent)
       (v : Except Unit Unit) (st : CheckSt),
      f1.proto.name = f → f2.proto.name = f →
      (∀ pr : CProto, CProgElem.Proto pr ∈ p2 → ¬ pr.name = f) →
      check_prog [] (p1 ++ CProgElem.Func f1 :: p2 ++ CProgElem.Func f2 :: p3) =
        Except.ok (v, st) →
      v = Except.error () ∧ funcDeclaredDiag f ∈ st.errors) ∧
    (∀ (errs : List CheckErr) (sy : SymTab) (ff : Frame CIdent FuncVal)
       (ffr : List (Frame CIdent FuncVal)) (fn : CFunc),
      frameLookup ff fn.proto.name = none →
      checkElem ⟨errs, sy, ⟨ff :: ffr⟩⟩ (CProgElem.Func fn) =
        Except.ok ⟨errs, sy, ⟨frameInsert ff fn.proto.name (fn.proto, some fn) :: ffr⟩⟩) := by
  constructor
  · intro p1 p2 p3 f1 f2 f v st h1 h2 hp2 h
    subst h1
    have hP := check_prog_eq_runD []
      (p1 ++ CProgElem.Func f1 :: p2 ++ CProgElem.Func f2 :: p3)
    rw [h] at hP
    simp only [Except.ok.injEq, Prod.mk.injEq, List.nil_append] at hP
    obtain ⟨hv, hst⟩ := hP
    have hg1 : frameLookup
        (stepD (runD [] [] p1).2.1 (runD [] [] p1).2.2 (CProgElem.Func f1)).2.2
        f1.proto.name = some (f1.proto, some f1) := by
      simp only [stepD]
      rw [frameLookup_frameInsert, if_pos rfl]
    have hg2 : ∃ P0 FN0, frameLookup
        (runD (stepD (runD [] [] p1).2.1 (runD [] [] p1).2.2 (CProgElem.Func f1)).2.1
              (stepD (runD [] [] p1).2.1 (runD [] [] p1).2.2 (CProgElem.Func f1)).2.2
              p2).2.2 f1.proto.name = some (P0, some FN0) := by
      have hchar := runD_func_lookup p2 f1.proto.name
        (stepD (runD [] [] p1).2.1 (runD [] [] p1).2.2 (CProgElem.Func f1)).2.1
        (stepD (runD [] [] p1).2.1 (runD [] [] p1).2.2 (CProgElem.Func f1)).2.2
      cases hl : lastFuncBind p2 f1.proto.name with
      | some w =>
        obtain ⟨fnX, hfnX⟩ := lastFuncBind_no_proto_body p2 f1.proto.name hp2 w hl
        rw [hl] at hchar
        simp only [Option.or] at hchar
        exact ⟨fnX.proto, fnX, by rw [hchar, hfnX]⟩
      | none =>
        rw [hl, Option.none_or, hg1] at hchar
        exact ⟨f1.proto, f1, hchar⟩
    obtain ⟨P0, FN0, hg2⟩ := hg2
    have hg2B : frameLookup
        (runD (runD [] [] p1).2.1 (runD [] [] p1).2.2 (CProgElem.Func f1 :: p2)).2.2
        f1.proto.name = some (P0, some FN0) := hg2
    have hg2C : frameLookup
        (runD [] [] (p1 ++ CProgElem.Func f1 :: p2)).2.2
        f1.proto.name = some (P0, some FN0) := by
      rw [runD_append]
      exact hg2B
    have hmem : funcDeclaredDiag f1.proto.name ∈
        (runD [] [] (p1 ++ CProgElem.Func f1 :: p2 ++ CProgElem.Func f2 :: p3)).1 := by
      apply runD_mem_append_right
      apply runD_mem_cons_head
      simp only [stepD, h2]
      rw [hg2C]
      exact List.mem_singleton.mpr rfl
    have hDne : ¬ ((runD [] []
        (p1 ++ CProgElem.Func f1 :: p2 ++ CProgElem.Func f2 :: p3)).1).length = 0 := by
      intro h0
      rw [List.length_eq_zero.mp h0] at hmem
      cases hmem
    constructor
    · rw [hv, if_neg hDne]
    · rw [hst]
      exact hmem
  · intro errs sy ff ffr fn hl
    simp [checkElem, Environment.insert, hl]

/-- Counterexample to C5 as stated: in the program consisting of a definition of
f, a prototype of f and a second definition of f, the two definitions of f do
not produce an already-declared diagnostic — the only diagnostic is the
prototype's already-defined one — so rejection happens without any diagnostic
naming f as already declared. -/
theorem func_redefinition_counterexample :
    check_prog []
      [CProgElem.Func ⟨⟨none, ("f"), []⟩, [], [], []⟩,
       CProgElem.Proto ⟨none, ("f"), []⟩,
       CProgElem.Func ⟨⟨some CType.Int, ("f"), []⟩, [], [], []⟩] =
      Except.ok (Except.error (),
        ⟨[funcDefinedDiag ("f")], ⟨[[]]⟩,
         ⟨[[(("f"), ((⟨some CType.Int, ("f"), []⟩ : CProto),
             some (⟨⟨some CType.Int, ("f"), []⟩, [], [], []⟩ : CFunc)))]]⟩⟩) ∧
    funcDeclaredDiag ("f") ∉ ([funcDefinedDiag ("f")] : List CheckErr) := by
  constructor
  · rfl
  · decide

/-- Witness for C5 at a concrete program: two definitions of f separated by an
unrelated prototype still yield the already-declared diagnostic. -/
theorem func_redefinition_declared_diag_witness :
    (Except.error () : Except Unit Unit) = Except.error () ∧
    funcDeclaredDiag ("f") ∈
      ([funcDefinedDiag ("g"), funcDeclaredDiag ("f")] : List CheckErr) :=
  func_redefinition_declared_diag.1 [CProgElem.Proto ⟨none, ("g"), []⟩] [CProgElem.Proto ⟨none, ("g"), []⟩] []
    ⟨⟨none, ("f"), []⟩, [], [], []⟩ ⟨⟨some CType.Int, ("f"), []⟩, [], [], []⟩ ("f")
    (Except.error ())
    ⟨[funcDefinedDiag ("g"), funcDeclaredDiag ("f")],
     ⟨[[]]⟩,
     ⟨[[(("g"), ((⟨none, ("g"), []⟩ : CProto), (none : Option CFunc))),
        (("f"), ((⟨some CType.Int, ("f"), []⟩ : CProto),
          some (⟨⟨some CType.Int, ("f"), []⟩, [], [], []⟩ : CFunc)))]]⟩⟩
    rfl rfl (by intro pr hpr; cases hpr with
      | head => intro hh; exact absurd hh (by decide)
      | tail _ hq => cases hq) rfl

/-- C2 (amended): in a program with a VarDecl of x followed later by a second
VarDecl of x, no other VarDecl of x anywhere, and the remaining program free of
duplicate declarations, check_prog rejects with exactly one diagnostic
referencing x — and the second occurrence's declaration is the one retained in
the variable table when the pass ends, the first being returned to the checker
only as the duplicate evidence (the original claim said the first is retained;
see the counterexample). -/
theorem var_duplicate_one_diag_second_retained
    (p1 p2 p3 : CProg) (d1 d2 : CVarDecl) (x : CIdent)
    (v : Except Unit Unit) (st : CheckSt)
    (h1 : d1.2.1 = x) (h2 : d2.2.1 = x)
    (hx1 : lastVarDecl p1 x = none) (hx2 : lastVarDecl p2 x = none)
    (hx3 : lastVarDecl p3 x = none)
    (hclean : ∃ st0, check_prog [] (p1 ++ p2 ++ p3) = Except.ok (Except.ok (), st0))
    (h : check_prog [] (p1 ++ CProgElem.VarDecl d1 :: p2 ++ CProgElem.VarDecl d2 :: p3) =
      Except.ok (v, st)) :
    v = Except.error () ∧ st.errors = [varDiag x] ∧
    st.syms.lookup x = some (d2, (none : Option CNum)) := by
  subst h1
  obtain ⟨st0, hclean⟩ := hclean
  have hP0 := check_prog_eq_runD [] (p1 ++ p2 ++ p3)
  rw [hclean] at hP0
  simp only [Except.ok.injEq, Prod.mk.injEq, List.nil_append] at hP0
  obtain ⟨hv0, _⟩ := hP0
  have hcleanD : (runD [] [] (p1 ++ p2 ++ p3)).1 = [] := by
    by_cases hc : (runD [] [] (p1 ++ p2 ++ p3)).1.length = 0
    · exact List.length_eq_zero.mp hc
    · rw [if_neg hc] at hv0
      exact absurd hv0 (by simp)
  rw [runD_append, runD_append] at hcleanD
  dsimp only at hcleanD
  simp only [List.append_eq_nil] at hcleanD
  obtain ⟨⟨hD1, hD2⟩, hD3⟩ := hcleanD
  have hs1x : frameLookup (runD [] [] p1).2.1 d1.2.1 = none := by
    have hc := runD_sym_lookup p1 d1.2.1 [] []
    rw [hx1] at hc
    simpa [frameLookup] using hc
  have hstep1 : stepD (runD [] [] p1).2.1 (runD [] [] p1).2.2 (CProgElem.VarDecl d1) =
      ([], frameInsert (runD [] [] p1).2.1 d1.2.1 (d1, none), (runD [] [] p1).2.2) := by
    simp only [stepD, hs1x]
  have hag1 : ∀ k, ¬ k = d1.2.1 →
      frameLookup (frameInsert (runD [] [] p1).2.1 d1.2.1 (d1, none)) k =
      frameLookup (runD [] [] p1).2.1 k := by
    intro k hk
    rw [frameLookup_frameInsert, if_neg hk]
  obtain ⟨hsim1, hsim2, hsim3, hsim4⟩ :=
    runD_sim d1.2.1 p2 (runD [] [] p1).2.1
      (frameInsert (runD [] [] p1).2.1 d1.2.1 (d1, none)) (runD [] [] p1).2.2 hx2 hag1
  have hs2x : frameLookup
      (runD (frameInsert (runD [] [] p1).2.1 d1.2.1 (d1, none)) (runD [] [] p1).2.2 p2).2.1
      d1.2.1 = some (d1, none) := by
    rw [hsim4, frameLookup_frameInsert]
    simp
  have hstep2 : stepD
      (runD (frameInsert (runD [] [] p1).2.1 d1.2.1 (d1, none)) (runD [] [] p1).2.2 p2).2.1
      (runD (frameInsert (runD [] [] p1).2.1 d1.2.1 (d1, none)) (runD [] [] p1).2.2 p2).2.2
      (CProgElem.VarDecl d2) =
      ([varDiag d1.2.1],
       frameInsert
         (runD (frameInsert (runD [] [] p1).2.1 d1.2.1 (d1, none)) (runD [] [] p1).2.2 p2).2.1
         d1.2.1 (d2, none),
       (runD (frameInsert (runD [] [] p1).2.1 d1.2.1 (d1, none)) (runD [] [] p1).2.2 p2).2.2) := by
    simp only [stepD, h2, hs2x]
  have hag2 : ∀ k, ¬ k = d1.2.1 →
      frameLookup
        (frameInsert
          (runD (frameInsert (runD [] [] p1).2.1 d1.2.1 (d1, none)) (runD [] [] p1).2.2 p2).2.1
          d1.2.1 (d2, none)) k =
      frameLookup (runD (runD [] [] p1).2.1 (runD [] [] p1).2.2 p2).2.1 k := by
    intro k hk
    rw [frameLookup_frameInsert, if_neg hk]
    exact hsim3 k hk
  obtain ⟨hsim1b, hsim2b, hsim3b, hsim4b⟩ :=
    runD_sim d1.2.1 p3 (runD (runD [] [] p1).2.1 (runD [] [] p1).2.2 p2).2.1
      (frameInsert
        (runD (frameInsert (runD [] [] p1).2.1 d1.2.1 (d1, none)) (runD [] [] p1).2.2 p2).2.1
        d1.2.1 (d2, none))
      (runD (runD [] [] p1).2.1 (runD [] [] p1).2.2 p2).2.2 hx3 hag2
  have hB1 : runD [] [] (p1 ++ CProgElem.VarDecl d1 :: p2) =
      ((runD [] [] p1).1 ++
        (runD (frameInsert (runD [] [] p1).2.1 d1.2.1 (d1, none)) (runD [] [] p1).2.2 p2).1,
       (runD (frameInsert (runD [] [] p1).2.1 d1.2.1 (d1, none)) (runD [] [] p1).2.2 p2).2) := by
    rw [runD_append, runD_cons, hstep1]
    rfl
  have h6 : runD [] [] (p1 ++ CProgElem.VarDecl d1 :: p2 ++ CProgElem.VarDecl d2 :: p3) =
      ((runD [] [] p1).1 ++
        (runD (frameInsert (runD [] [] p1).2.1 d1.2.1 (d1, none)) (runD [] [] p1).2.2 p2).1 ++
        ([varDiag d1.2.1] ++
          (runD
            (frameInsert
              (runD (frameInsert (runD [] [] p1).2.1 d1.2.1 (d1, none)) (runD [] [] p1).2.2 p2).2.1
              d1.2.1 (d2, none))
            (runD (frameInsert (runD [] [] p1).2.1 d1.2.1 (d1, none)) (runD [] [] p1).2.2 p2).2.2
            p3).1),
       (runD
          (frameInsert
            (runD (frameInsert (runD [] [] p1).2.1 d1.2.1 (d1, none)) (runD [] [] p1).2.2 p2).2.1
            d1.2.1 (d2, none))
          (runD (frameInsert (runD [] [] p1).2.1 d1.2.1 (d1, none)) (runD [] [] p1).2.2 p2).2.2
          p3).2) := by
    rw [runD_append, hB1]
    dsimp only
    rw [runD_cons]
    rw [hstep2]
  have hA : (runD [] []
      (p1 ++ CProgElem.VarDecl d1 :: p2 ++ CProgElem.VarDecl d2 :: p3)).1 =
      [varDiag d1.2.1] := by
    rw [h6]
    dsimp only
    rw [hD1, hsim1, hD2, hsim2, hsim1b, hD3]
    simp
  have hB : frameLookup (runD [] []
      (p1 ++ CProgElem.VarDecl d1 :: p2 ++ CProgElem.VarDecl d2 :: p3)).2.1 d1.2.1 =
      some (d2, (none : Option CNum)) := by
    rw [h6]
    dsimp only
    rw [hsim2, hsim4b, frameLookup_frameInsert]
    simp
  have hP := check_prog_eq_runD []
    (p1 ++ CProgElem.VarDecl d1 :: p2 ++ CProgElem.VarDecl d2 :: p3)
  rw [h] at hP
  simp only [Except.ok.injEq, Prod.mk.injEq, List.nil_append] at hP
  obtain ⟨hv, hst⟩ := hP
  refine ⟨?_, ?_, ?_⟩
  · rw [hv, hA]
    simp
  · rw [hst]
    exact hA
  · rw [hst]
    show framesLookup [(runD [] []
      (p1 ++ CProgElem.VarDecl d1 :: p2 ++ CProgElem.VarDecl d2 :: p3)).2.1] d1.2.1 = _
    simp only [framesLookup, hB]

/-- Counterexample to C2 as stated: after two declarations of x the variable
table retains the second declaration's node, not the first one's. -/
theorem var_duplicate_first_retained_counterexample :
    check_prog []
      [CProgElem.VarDecl (CType.Int, ("x"), none),
       CProgElem.VarDecl (CType.Char, ("x"), none)] =
      Except.ok (Except.error (),
        ⟨[varDiag ("x")],
         ⟨[[(("x"), ((CType.Char, ("x"), none), (none : Option CNum)))]]⟩, ⟨[[]]⟩⟩) ∧
    ¬ (⟨[[(("x"), ((CType.Char, ("x"), none), (none : Option CNum)))]]⟩ : SymTab).lookup ("x") =
        some ((CType.Int, ("x"), none), (none : Option CNum)) := by
  constructor
  · rfl
  · decide

/-- Witness for C2 at a concrete program with one harmless malformed element. -/
theorem var_duplicate_one_diag_second_retained_witness :
    (Except.error () : Except Unit Unit) = Except.error () ∧
    ([varDiag ("x")] : List CheckErr) = [varDiag ("x")] ∧
    (⟨[[(("x"), ((CType.Char, ("x"), none), (none : Option CNum)))]]⟩ : SymTab).lookup ("x") =
      some ((CType.Char, ("x"), none), (none : Option CNum)) :=
  var_duplicate_one_diag_second_retained [CProgElem.Error] [] []
    (CType.Int, ("x"), none) (CType.Char, ("x"), none) ("x")
    (Except.error ())
    ⟨[varDiag ("x")],
     ⟨[[(("x"), ((CType.Char, ("x"), none), (none : Option CNum)))]]⟩, ⟨[[]]⟩⟩
    rfl rfl rfl rfl rfl ⟨⟨[], ⟨[[]]⟩, ⟨[[]]⟩⟩, rfl⟩ rfl

end Cmm
